import Mathlib

/-!
Shallow embedding of the Farm Boy schedule synchronizer
(`src/utils/date_parser.py` and `src/services/calendar_service.py`):
the temporal parser, the ICS file emitter, and the Google-Calendar
reconciler (pre-clean duplicate pass, existence check, upsert loop).

Timestamps are modelled at minute resolution for naive local datetimes
(`DT`, mirroring Python `datetime` without seconds, as the parsed data
carries none) and at second resolution (`Int`) for the timezone-qualified
instants exchanged with the remote store; the fixed regional time zone is
modelled as a fixed-offset embedding of local wall-clock time.
-/

namespace Farmboy

/-! ### Character classes and string helpers (Python `re` / `str` semantics) -/

def isLetterC (c : Char) : Bool :=
  ('A' ≤ c && c ≤ 'Z') || ('a' ≤ c && c ≤ 'z')

def isDigitC (c : Char) : Bool :=
  '0' ≤ c && c ≤ '9'

def isSpaceC (c : Char) : Bool :=
  c == ' ' || c == '\t' || c == '\n' || c == '\r' || c == '\x0b' || c == '\x0c'

/-- `int()` on a captured all-digits group. -/
def digitsToNat (cs : List Char) : Nat :=
  cs.foldl (fun n c => 10 * n + (c.toNat - '0'.toNat)) 0

def listIsPrefixOf : List Char → List Char → Bool
  | [], _ => true
  | _ :: _, [] => false
  | a :: as, b :: bs => a == b && listIsPrefixOf as bs

def listIsInfixOf (pat : List Char) : List Char → Bool
  | [] => pat.isEmpty
  | b :: bs => listIsPrefixOf pat (b :: bs) || listIsInfixOf pat bs

/-- Python `pat in s` substring containment. -/
def strContainsSub (s pat : String) : Bool :=
  listIsInfixOf pat.data s.data

/-- Python `str.lower()` (ASCII case mapping, characterwise). -/
def strToLower (s : String) : String :=
  String.mk (s.data.map Char.toLower)

/-! ### Naive local datetimes (Python `datetime`, minute resolution) -/

structure DT where
  year : Nat
  month : Nat
  day : Nat
  hour : Nat
  minute : Nat
deriving DecidableEq, Repr

structure Date where
  year : Nat
  month : Nat
  day : Nat
deriving DecidableEq, Repr

/-- Python `datetime.date()`. -/
def DT.dateOf (t : DT) : Date := ⟨t.year, t.month, t.day⟩

def isLeap (y : Nat) : Bool :=
  (y % 4 == 0 && y % 100 != 0) || y % 400 == 0

def daysInMonth (y m : Nat) : Nat :=
  if m == 2 then (if isLeap y then 29 else 28)
  else if m == 4 || m == 6 || m == 9 || m == 11 then 30
  else if 1 ≤ m && m ≤ 12 then 31
  else 0

def daysBeforeMonth (y : Nat) : Nat → Nat
  | 0 => 0
  | m + 1 => daysBeforeMonth y m + daysInMonth y m

def daysInYear (y : Nat) : Nat := if isLeap y then 366 else 365

/-- Days in years `1 .. n` of the proleptic Gregorian calendar. -/
def daysBeforeYear : Nat → Nat
  | 0 => 0
  | y + 1 => daysBeforeYear y + daysInYear (y + 1)

/-- Proleptic-Gregorian day index of a civil date (days since 0001-01-01). -/
def dayNumber (y m d : Nat) : Nat :=
  daysBeforeYear (y - 1) + daysBeforeMonth y m + (d - 1)

/-- Total order on datetimes, as minutes on the day-index scale. -/
def toMinutes (t : DT) : Nat :=
  1440 * dayNumber t.year t.month t.day + 60 * t.hour + t.minute

/-- Validity enforced by the Python `datetime` constructor. -/
def validDT (t : DT) : Bool :=
  decide (1 ≤ t.year) && decide (t.year ≤ 9999) &&
  decide (1 ≤ t.month) && decide (t.month ≤ 12) &&
  decide (1 ≤ t.day) && decide (t.day ≤ daysInMonth t.year t.month) &&
  decide (t.hour ≤ 23) && decide (t.minute ≤ 59)

/-- Python `dt + timedelta(days=1)` on the calendar-date component. -/
def addOneDay (t : DT) : DT :=
  if t.day < daysInMonth t.year t.month then ⟨t.year, t.month, t.day + 1, t.hour, t.minute⟩
  else if t.month < 12 then ⟨t.year, t.month + 1, 1, t.hour, t.minute⟩
  else ⟨t.year + 1, 1, 1, t.hour, t.minute⟩

/-! ### The temporal parser (`src/utils/date_parser.py`, `parse_date_time`) -/

/-- Captured groups of `([A-Za-z]+),\s+([A-Za-z]+)\s+(\d+)(st|nd|rd|th)?`. -/
structure DateGroups where
  weekday : String
  monthStr : String
  dayStr : String
deriving DecidableEq, Repr

/-- Captured groups of `(\d+):(\d+)\s*([AP]M)\s*to\s*(\d+):(\d+)\s*([AP]M)`. -/
structure TimeGroups where
  startHourStr : String
  startMinStr : String
  startAmPm : String
  endHourStr : String
  endMinStr : String
  endAmPm : String
deriving DecidableEq, Repr

/-- `re.match` of the date pattern: anchored at the start, trailing text
allowed; the optional ordinal-suffix group does not affect the captures. -/
def matchDateStr (s : String) : Option DateGroups :=
  let (w, r1) := s.data.span isLetterC
  if w.isEmpty then none else
  match r1 with
  | ',' :: r2 =>
    let (sp1, r3) := r2.span isSpaceC
    if sp1.isEmpty then none else
    let (mo, r4) := r3.span isLetterC
    if mo.isEmpty then none else
    let (sp2, r5) := r4.span isSpaceC
    if sp2.isEmpty then none else
    let (dg, _) := r5.span isDigitC
    if dg.isEmpty then none else
    some ⟨String.mk w, String.mk mo, String.mk dg⟩
  | _ => none

def matchAmPm : List Char → Option (String × List Char)
  | 'A' :: 'M' :: r => some ("AM", r)
  | 'P' :: 'M' :: r => some ("PM", r)
  | _ => none

/-- `re.match` of the time pattern: anchored at the start, trailing text allowed. -/
def matchTimeStr (s : String) : Option TimeGroups :=
  let (h1, r1) := s.data.span isDigitC
  if h1.isEmpty then none else
  match r1 with
  | ':' :: r2 =>
    let (m1, r3) := r2.span isDigitC
    if m1.isEmpty then none else
    let (_, r4) := r3.span isSpaceC
    match matchAmPm r4 with
    | none => none
    | some (ap1, r5) =>
      let (_, r6) := r5.span isSpaceC
      match r6 with
      | 't' :: 'o' :: r7 =>
        let (_, r8) := r7.span isSpaceC
        let (h2, r9) := r8.span isDigitC
        if h2.isEmpty then none else
        match r9 with
        | ':' :: r10 =>
          let (m2, r11) := r10.span isDigitC
          if m2.isEmpty then none else
          let (_, r12) := r11.span isSpaceC
          match matchAmPm r12 with
          | none => none
          | some (ap2, _) =>
            some ⟨String.mk h1, String.mk m1, ap1, String.mk h2, String.mk m2, ap2⟩
        | _ => none
      | _ => none
  | _ => none

/-- The fixed month-abbreviation table (a Python dict, looked up with `.get`). -/
def months : List (String × Nat) :=
  [("Jan", 1), ("Feb", 2), ("Mar", 3), ("Apr", 4), ("May", 5), ("Jun", 6),
   ("Jul", 7), ("Aug", 8), ("Sep", 9), ("Oct", 10), ("Nov", 11), ("Dec", 12)]

/-- The 12-hour-to-24-hour conversion applied to each endpoint:
`if ampm == 'PM' and hour < 12: hour += 12 elif ampm == 'AM' and hour == 12: hour = 0`. -/
def to24Hour (hour : Nat) (ampm : String) : Nat :=
  if ampm == "PM" && hour < 12 then hour + 12
  else if ampm == "AM" && hour == 12 then 0
  else hour

/-- `parse_date_time(date_str, time_str, current_year)`: every raised error
(regex mismatch, unknown month, invalid `datetime` field, overflow of the
one-day rollover) is caught and surfaces as `none`. -/
def parse_date_time (date_str time_str : String) (current_year : Nat) : Option (DT × DT) :=
  match matchDateStr date_str with
  | none => none
  | some dg =>
    match months.lookup dg.monthStr with
    | none => none
    | some month =>
      match matchTimeStr time_str with
      | none => none
      | some tg =>
        let start_hour := to24Hour (digitsToNat tg.startHourStr.data) tg.startAmPm
        let end_hour := to24Hour (digitsToNat tg.endHourStr.data) tg.endAmPm
        let day := digitsToNat dg.dayStr.data
        let start_time : DT := ⟨current_year, month, day, start_hour, digitsToNat tg.startMinStr.data⟩
        let end_time : DT := ⟨current_year, month, day, end_hour, digitsToNat tg.endMinStr.data⟩
        if validDT start_time && validDT end_time then
          if toMinutes end_time ≤ toMinutes start_time then
            let rolled := addOneDay end_time
            if rolled.year ≤ 9999 then some (start_time, rolled) else none
          else some (start_time, end_time)
        else none

/-! ### Shift records and normalization defaults -/

/-- A raw shift record: `date`/`time` are always present in the scraped dict;
the remaining fields are read with `.get` and a default. -/
structure Shift where
  date : String
  time : String
  status : Option String
  role : Option String
  department : Option String
  duration : Option String
deriving DecidableEq, Repr

/-- `shift.get('status', '').lower() == 'absent'` — the absence check shared by
both emitters. -/
def isAbsent (status : Option String) : Bool :=
  strToLower (status.getD "") == "absent"

def mkRole (shift : Shift) : String := shift.role.getD "Farm Boy Employee"

def mkDept (shift : Shift) : String := shift.department.getD "Farm Boy"

/-- `f"Work: {role} ({department})"` — shared by both emitters. -/
def mkSummary (shift : Shift) : String :=
  "Work: " ++ mkRole shift ++ " (" ++ mkDept shift ++ ")"

/-- The ICS description (the source writes a literal backslash-n separator). -/
def icsDescription (shift : Shift) : String :=
  "Role: " ++ mkRole shift ++ "\\nDepartment: " ++ mkDept shift ++
    "\\nDuration: " ++ shift.duration.getD "N/A"

/-- The Google-Calendar description (real newlines). -/
def gcalDescription (shift : Shift) : String :=
  "Role: " ++ mkRole shift ++ "\nDepartment: " ++ mkDept shift ++
    "\nDuration: " ++ shift.duration.getD "N/A"

/-! ### The calendar file emitter (`create_ics`) -/

structure IcsEvent where
  summary : String
  description : String
  location : String
  start : DT
  stop : DT
deriving DecidableEq, Repr

/-- One loop iteration of `create_ics`: the event emitted for a shift, or
`none` when the shift is skipped (absent status, or unparseable date/time). -/
def icsEventOf (year : Nat) (shift : Shift) : Option IcsEvent :=
  if isAbsent shift.status then none
  else
    match parse_date_time shift.date shift.time year with
    | none => none
    | some (s, e) => some ⟨mkSummary shift, icsDescription shift, "Farm Boy", s, e⟩

/-- The sequence of VEVENT blocks `create_ics` writes, in input order. -/
def icsEvents (year : Nat) (shifts : List Shift) : List IcsEvent :=
  shifts.filterMap (icsEventOf year)

/-! ### The remote store and the reconciler (`calendar_service.py`) -/

/-- A remote calendar event as observed through the API: `start`/`stop` are
the `dateTime` instants (seconds on the fixed-offset local scale), absent for
all-day events. -/
structure GEvent where
  id : String
  summary : String
  location : String
  start : Option Int
  stop : Option Int
deriving DecidableEq, Repr

/-- The remote store: `list timeMin timeMax` is `events().list(...)`, which may
raise (`Except.error`); `insertFails start stop` says whether the
`events().insert` call for a candidate with those endpoints raises. -/
structure Store where
  list : Int → Int → Except Unit (List GEvent)
  insertFails : Int → Int → Bool

/-- A remote store with no events, where every operation succeeds. -/
def emptyStore : Store :=
  { list := fun _ _ => Except.ok [], insertFails := fun _ _ => false }

/-- Localized naive datetimes, as seconds on the fixed-offset local scale. -/
def toSeconds (t : DT) : Int := 60 * (toMinutes t : Int)

/-- `check_event_exists`: searches `[start − 1h, end + 1h]` and looks for a
Farm Boy work event within 30 minutes on both endpoints; any exception
(including a failing list query) yields `false`. -/
def check_event_exists (store : Store) (start_time end_time : Int) : Bool :=
  match store.list (start_time - 3600) (end_time + 3600) with
  | .error _ => false
  | .ok events =>
    events.any fun event =>
      strContainsSub event.summary "Work:" && event.location == "Farm Boy" &&
        (match event.start, event.stop with
         | some event_start, some event_end =>
           decide ((start_time - event_start).natAbs / 60 < 30) &&
           decide ((end_time - event_end).natAbs / 60 < 30)
         | _, _ => false)

/-- `event['start'].get('dateTime', '')` as used for the grouping key. -/
def eventStartStr (event : GEvent) : String :=
  match event.start with
  | some t => toString t
  | none => ""

/-- `key = f"{start_time}_{summary}"`. -/
def eventKey (event : GEvent) : String :=
  eventStartStr event ++ "_" ++ event.summary

/-- Python dict insertion: groups keep insertion order, members are appended. -/
def insertGrouped (groups : List (String × List GEvent)) (key : String) (event : GEvent) :
    List (String × List GEvent) :=
  match groups with
  | [] => [(key, [event])]
  | (k, g) :: rest =>
    if k == key then (k, g ++ [event]) :: rest
    else (k, g) :: insertGrouped rest key event

/-- The grouping pass of `find_duplicate_events`: only Farm Boy work events
participate. -/
def eventGroups (events : List GEvent) : List (String × List GEvent) :=
  events.foldl
    (fun groups event =>
      if strContainsSub event.summary "Work:" && event.location == "Farm Boy" then
        insertGrouped groups (eventKey event) event
      else groups)
    []

/-- The ids flagged by `find_duplicate_events` from one day's event list:
in every group with more than one member, all members past the first. -/
def findDuplicateIds (events : List GEvent) : List String :=
  ((eventGroups events).map fun kg =>
    if 1 < kg.2.length then (kg.2.drop 1).map GEvent.id else []).flatten

/-- Day-boundary query window of `find_duplicate_events`:
`datetime(y, m, d, 0, 0, 0)` to `datetime(y, m, d, 23, 59, 59)`, localized. -/
def dateStartSec (d : Date) : Int := 86400 * (dayNumber d.year d.month d.day : Int)

def dateEndSec (d : Date) : Int :=
  86400 * (dayNumber d.year d.month d.day : Int) + (23 * 3600 + 59 * 60 + 59)

/-- `find_duplicate_events`: query the day window and flag duplicates; any
exception yields `[]`. -/
def find_duplicate_events (store : Store) (d : Date) : List String :=
  match store.list (dateStartSec d) (dateEndSec d) with
  | .error _ => []
  | .ok events => findDuplicateIds events

/-- One iteration of the date-collection loop of
`add_events_to_google_calendar` (lines 346-350): a successfully-parsed shift
contributes its start date unless already present. -/
def precleanStep (year : Nat) (shift_dates : List Date) (shift : Shift) : List Date :=
  match parse_date_time shift.date shift.time year with
  | some (start_dt, _) =>
    if shift_dates.contains start_dt.dateOf then shift_dates
    else shift_dates ++ [start_dt.dateOf]
  | none => shift_dates

/-- The dates the pre-clean pass will query, in first-occurrence order. -/
def precleanDates (year : Nat) (shifts : List Shift) : List Date :=
  shifts.foldl (precleanStep year) []

/-- Outcome of one iteration of the per-shift loop of
`add_events_to_google_calendar`. -/
inductive GcalOutcome where
  | absent
  | invalid
  | skipped
  | inserted
  | insertFailed
deriving DecidableEq, Repr

/-- One iteration of the per-shift upsert loop: absent check, parse, duplicate
check, insert (whose own failure is caught and counted nowhere). -/
def processShiftGcal (store : Store) (year : Nat) (shift : Shift) : GcalOutcome :=
  if isAbsent shift.status then .absent
  else
    match parse_date_time shift.date shift.time year with
    | none => .invalid
    | some (start_dt, end_dt) =>
      if check_event_exists store (toSeconds start_dt) (toSeconds end_dt) then .skipped
      else if store.insertFails (toSeconds start_dt) (toSeconds end_dt) then .insertFailed
      else .inserted

/-- How one shift updates `(added_count, skipped_count)`. -/
def runStep (store : Store) (year : Nat) (counts : Nat × Nat) (shift : Shift) : Nat × Nat :=
  match processShiftGcal store year shift with
  | .inserted => (counts.1 + 1, counts.2)
  | .skipped => (counts.1, counts.2 + 1)
  | _ => counts

/-- `(added_count, skipped_count)` accumulated by the upsert loop. -/
def runCounts (store : Store) (year : Nat) (shifts : List Shift) : Nat × Nat :=
  shifts.foldl (runStep store year) (0, 0)

/-- The run-level boolean result: `added_count > 0 or skipped_count > 0`. -/
def add_events_to_google_calendar (store : Store) (year : Nat) (shifts : List Shift) : Bool :=
  decide (0 < (runCounts store year shifts).1) || decide (0 < (runCounts store year shifts).2)

/-! ### Calendar arithmetic lemmas -/

theorem daysBeforeMonth_12 (y : Nat) :
    daysBeforeMonth y 12 = 334 + (if isLeap y then 1 else 0) := by
  by_cases hl : isLeap y <;>
    simp [daysBeforeMonth, daysInMonth, hl]

theorem addOneDay_hour (t : DT) : (addOneDay t).hour = t.hour := by
  unfold addOneDay
  split
  · rfl
  · split <;> rfl

theorem addOneDay_minute (t : DT) : (addOneDay t).minute = t.minute := by
  unfold addOneDay
  split
  · rfl
  · split <;> rfl

theorem toMinutes_addOneDay (t : DT) (h : validDT t = true) :
    toMinutes (addOneDay t) = toMinutes t + 1440 := by
  obtain ⟨y, mo, d, hr, mi⟩ := t
  simp only [validDT, Bool.and_eq_true, decide_eq_true_eq] at h
  obtain ⟨⟨⟨⟨⟨⟨⟨hy1, hy2⟩, hm1⟩, hm2⟩, hd1⟩, hd2⟩, hh⟩, hmin⟩ := h
  unfold addOneDay
  split
  · simp only [toMinutes, dayNumber]
    omega
  · rename_i hnlt
    split
    · simp only [toMinutes, dayNumber, daysBeforeMonth]
      simp only at hnlt hd2 ⊢
      omega
    · rename_i hnmlt
      simp only at hnlt hnmlt hd2 hm2 ⊢
      have hm12 : mo = 12 := by omega
      subst hm12
      have hdim : daysInMonth y 12 = 31 := by simp [daysInMonth]
      rw [hdim] at hnlt hd2
      have hd31 : d = 31 := by omega
      subst hd31
      have hstep : daysBeforeYear y = daysBeforeYear (y - 1) + daysInYear y := by
        obtain ⟨z, rfl⟩ : ∃ z, y = z + 1 := ⟨y - 1, by omega⟩
        simp [daysBeforeYear]
      have h0 : daysBeforeMonth (y + 1) 1 = 0 := by
        simp [daysBeforeMonth, daysInMonth]
      simp only [toMinutes, dayNumber, Nat.add_sub_cancel, hstep, h0, daysBeforeMonth_12,
        daysInYear]
      by_cases hl : isLeap y <;> simp only [hl, if_pos, if_neg, Bool.false_eq_true,
        not_false_eq_true, if_true, if_false] <;> omega

theorem daysInMonth_pos (y m : Nat) (h1 : 1 ≤ m) (h2 : m ≤ 12) : 28 ≤ daysInMonth y m := by
  unfold daysInMonth
  split
  · split <;> omega
  · split
    · omega
    · split
      · omega
      · rename_i hc
        simp only [Bool.and_eq_true, decide_eq_true_eq] at hc
        omega

theorem validDT_addOneDay (t : DT) (h : validDT t = true)
    (hy : (addOneDay t).year ≤ 9999) : validDT (addOneDay t) = true := by
  obtain ⟨y, mo, d, hr, mi⟩ := t
  simp only [validDT, Bool.and_eq_true, decide_eq_true_eq] at h
  obtain ⟨⟨⟨⟨⟨⟨⟨hy1, hy2⟩, hm1⟩, hm2⟩, hd1⟩, hd2⟩, hh⟩, hmin⟩ := h
  unfold addOneDay at hy ⊢
  split at hy
  · rename_i h1
    rw [if_pos h1]
    simp only at h1
    simp only [validDT, Bool.and_eq_true, decide_eq_true_eq]
    omega
  · rename_i h1
    rw [if_neg h1]
    simp only at h1
    split at hy
    · rename_i h2
      rw [if_pos h2]
      simp only at h2
      have hpos : 28 ≤ daysInMonth y (mo + 1) := daysInMonth_pos y (mo + 1) (by omega) (by omega)
      simp only [validDT, Bool.and_eq_true, decide_eq_true_eq]
      omega
    · rename_i h2
      rw [if_neg h2]
      simp only at h2 hy
      have hpos : 28 ≤ daysInMonth (y + 1) 1 := daysInMonth_pos (y + 1) 1 (by omega) (by omega)
      simp only [validDT, Bool.and_eq_true, decide_eq_true_eq]
      omega

/-- Inversion principle for a successful parse: recovers the matched groups,
the constructed endpoints, their validity, and the rollover case split. -/
theorem parse_inversion (date_str time_str : String) (y : Nat) (s e : DT)
    (h : parse_date_time date_str time_str y = some (s, e)) :
    ∃ dg tg month,
      matchDateStr date_str = some dg ∧
      months.lookup dg.monthStr = some month ∧
      matchTimeStr time_str = some tg ∧
      s = ⟨y, month, digitsToNat dg.dayStr.data,
           to24Hour (digitsToNat tg.startHourStr.data) tg.startAmPm,
           digitsToNat tg.startMinStr.data⟩ ∧
      validDT s = true ∧
      (let e0 : DT := ⟨y, month, digitsToNat dg.dayStr.data,
           to24Hour (digitsToNat tg.endHourStr.data) tg.endAmPm,
           digitsToNat tg.endMinStr.data⟩
       validDT e0 = true ∧
       ((toMinutes e0 ≤ toMinutes s ∧ e = addOneDay e0 ∧ e.year ≤ 9999) ∨
        (toMinutes s < toMinutes e0 ∧ e = e0))) := by
  unfold parse_date_time at h
  split at h
  · exact absurd h (by simp)
  · rename_i dg hdg
    split at h
    · exact absurd h (by simp)
    · rename_i month hmo
      split at h
      · exact absurd h (by simp)
      · rename_i tg htg
        refine ⟨dg, tg, month, hdg, hmo, htg, ?_⟩
        dsimp only at h
        split at h
        · rename_i hvalid
          rw [Bool.and_eq_true] at hvalid
          split at h
          · rename_i hroll
            split at h
            · rename_i hyear
              simp only [Option.some.injEq, Prod.mk.injEq] at h
              obtain ⟨hs, he⟩ := h
              subst hs
              subst he
              exact ⟨rfl, hvalid.1, hvalid.2, Or.inl ⟨hroll, rfl, hyear⟩⟩
            · exact absurd h (by simp)
          · rename_i hnroll
            simp only [Option.some.injEq, Prod.mk.injEq] at h
            obtain ⟨hs, he⟩ := h
            subst hs
            subst he
            exact ⟨rfl, hvalid.1, hvalid.2, Or.inr ⟨by omega, rfl⟩⟩
        · exact absurd h (by simp)

theorem dayNumber_addOneDay (t : DT) (hv : validDT t = true) :
    dayNumber (addOneDay t).year (addOneDay t).month (addOneDay t).day =
      dayNumber t.year t.month t.day + 1 := by
  have h1440 := toMinutes_addOneDay t hv
  have hh := addOneDay_hour t
  have hm := addOneDay_minute t
  unfold toMinutes at h1440
  omega

/-- C3: for every date text and time-range text the temporal parser accepts,
the returned pair has end strictly after start; and whenever the end timestamp
assembled from the parsed fields (start's calendar date with end's time of
day) does not exceed start, the returned end is exactly that timestamp plus
one calendar day, whose date index is one past start's. -/
theorem C3_overnight_rollover (date_str time_str : String) (y : Nat) (s e : DT)
    (h : parse_date_time date_str time_str y = some (s, e)) :
    toMinutes s < toMinutes e ∧
    (toMinutes ⟨s.year, s.month, s.day, e.hour, e.minute⟩ ≤ toMinutes s →
      e = addOneDay ⟨s.year, s.month, s.day, e.hour, e.minute⟩ ∧
      dayNumber e.year e.month e.day = dayNumber s.year s.month s.day + 1) := by
  obtain ⟨dg, tg, month, hdg, hmo, htg, hs, hvs, hrest⟩ :=
    parse_inversion date_str time_str y s e h
  dsimp only at hrest
  obtain ⟨hve0, hcase⟩ := hrest
  subst hs
  simp only [validDT, Bool.and_eq_true, decide_eq_true_eq] at hvs
  rcases hcase with ⟨hle, heq, hyr⟩ | ⟨hlt, heq⟩ <;> subst heq
  · have h1440 := toMinutes_addOneDay _ hve0
    have hX : (⟨y, month, digitsToNat dg.dayStr.data,
        (addOneDay ⟨y, month, digitsToNat dg.dayStr.data,
          to24Hour (digitsToNat tg.endHourStr.data) tg.endAmPm,
          digitsToNat tg.endMinStr.data⟩).hour,
        (addOneDay ⟨y, month, digitsToNat dg.dayStr.data,
          to24Hour (digitsToNat tg.endHourStr.data) tg.endAmPm,
          digitsToNat tg.endMinStr.data⟩).minute⟩ : DT) =
        ⟨y, month, digitsToNat dg.dayStr.data,
          to24Hour (digitsToNat tg.endHourStr.data) tg.endAmPm,
          digitsToNat tg.endMinStr.data⟩ := by
      simp only [addOneDay_hour, addOneDay_minute]
    refine ⟨?_, fun _ => ⟨by rw [hX], ?_⟩⟩
    · simp only [toMinutes] at h1440 hle ⊢
      omega
    · exact dayNumber_addOneDay _ hve0
  · have hX : (⟨y, month, digitsToNat dg.dayStr.data,
        DT.hour ⟨y, month, digitsToNat dg.dayStr.data,
          to24Hour (digitsToNat tg.endHourStr.data) tg.endAmPm,
          digitsToNat tg.endMinStr.data⟩,
        DT.minute ⟨y, month, digitsToNat dg.dayStr.data,
          to24Hour (digitsToNat tg.endHourStr.data) tg.endAmPm,
          digitsToNat tg.endMinStr.data⟩⟩ : DT) =
        ⟨y, month, digitsToNat dg.dayStr.data,
          to24Hour (digitsToNat tg.endHourStr.data) tg.endAmPm,
          digitsToNat tg.endMinStr.data⟩ := rfl
    refine ⟨hlt, fun hyp => absurd hyp ?_⟩
    rw [hX]
    omega

/-- C3 witness at the spec's own example (reference year 5 to keep the
calendar arithmetic small): `"Mon, Jan 1st", "11:00 PM to 1:00 AM"`. -/
theorem C3_overnight_rollover_witness :
    toMinutes ⟨5, 1, 1, 23, 0⟩ < toMinutes ⟨5, 1, 2, 1, 0⟩ ∧
    (toMinutes ⟨5, 1, 1, 1, 0⟩ ≤ toMinutes ⟨5, 1, 1, 23, 0⟩ →
      (⟨5, 1, 2, 1, 0⟩ : DT) = addOneDay ⟨5, 1, 1, 1, 0⟩ ∧
      dayNumber 5 1 2 = dayNumber 5 1 1 + 1) :=
  C3_overnight_rollover "Mon, Jan 1st" "11:00 PM to 1:00 AM" 5
    ⟨5, 1, 1, 23, 0⟩ ⟨5, 1, 2, 1, 0⟩ (by decide)

/-- C4: the 12-hour-to-24-hour conversion used for both endpoints maps
hour 12 + AM to 0, hour < 12 + PM to hour + 12, hour 12 + PM to 12, and
hour < 12 + AM to itself. -/
theorem C4_hour_conversion :
    to24Hour 12 "AM" = 0 ∧ to24Hour 12 "PM" = 12 ∧
    (∀ h : Nat, h < 12 → to24Hour h "PM" = h + 12) ∧
    (∀ h : Nat, h < 12 → to24Hour h "AM" = h) := by
  refine ⟨by decide, by decide, ?_, ?_⟩ <;> intro h hh <;>
    simp [to24Hour, hh, Nat.ne_of_lt hh]

/-- C4 witness: the conversion applied at concrete hours. -/
theorem C4_hour_conversion_witness :
    to24Hour 5 "PM" = 17 ∧ to24Hour 9 "AM" = 9 :=
  ⟨C4_hour_conversion.2.2.1 5 (by decide), C4_hour_conversion.2.2.2 9 (by decide)⟩

theorem lookup_eq_none_of_not_mem (ms : String) (l : List (String × Nat))
    (h : ms ∉ l.map Prod.fst) : l.lookup ms = none := by
  induction l with
  | nil => rfl
  | cons p rest ih =>
    obtain ⟨k, v⟩ := p
    simp only [List.map_cons, List.mem_cons, not_or] at h
    have hk : (ms == k) = false := by
      simp only [beq_eq_false_iff_ne, ne_eq]
      exact h.1
    simp only [List.lookup, hk]
    exact ih h.2

theorem processShiftGcal_invalid (store : Store) (y : Nat) (bad : Shift)
    (habs : isAbsent bad.status = false)
    (hparse : parse_date_time bad.date bad.time y = none) :
    processShiftGcal store y bad = .invalid := by
  simp [processShiftGcal, habs, hparse]

/-- C5: any date-regex mismatch, any month token outside the fixed
case-sensitive table, any time-regex mismatch, and any invalid numeric field
make the parser return the failure value `none` (it is a total function, so it
never raises); the file emitter and the reconciler loop both skip exactly the
failing record and process the rest of the batch unchanged. -/
theorem C5_invalid_input_resilience :
    (∀ date_str time_str y, matchDateStr date_str = none →
      parse_date_time date_str time_str y = none) ∧
    (∀ date_str time_str y dg, matchDateStr date_str = some dg →
      dg.monthStr ∉ months.map Prod.fst →
      parse_date_time date_str time_str y = none) ∧
    (∀ date_str time_str y, matchTimeStr time_str = none →
      parse_date_time date_str time_str y = none) ∧
    (∀ date_str time_str y s e, parse_date_time date_str time_str y = some (s, e) →
      validDT s = true ∧ validDT e = true) ∧
    (∀ y pre post bad, isAbsent bad.status = false →
      parse_date_time bad.date bad.time y = none →
      icsEvents y (pre ++ bad :: post) = icsEvents y pre ++ icsEvents y post) ∧
    (∀ store y pre post bad, isAbsent bad.status = false →
      parse_date_time bad.date bad.time y = none →
      runCounts store y (pre ++ bad :: post) = runCounts store y (pre ++ post)) := by
  refine ⟨?_, ?_, ?_, ?_, ?_, ?_⟩
  · intro date_str time_str y hd
    simp [parse_date_time, hd]
  · intro date_str time_str y dg hd hmo
    have : months.lookup dg.monthStr = none := lookup_eq_none_of_not_mem _ _ hmo
    simp [parse_date_time, hd, this]
  · intro date_str time_str y ht
    unfold parse_date_time
    split
    · rfl
    · split
      · rfl
      · rw [ht]
  · intro date_str time_str y s e h
    obtain ⟨dg, tg, month, _, _, _, hs, hvs, hrest⟩ :=
      parse_inversion date_str time_str y s e h
    dsimp only at hrest
    obtain ⟨hve0, hcase⟩ := hrest
    refine ⟨hvs, ?_⟩
    rcases hcase with ⟨_, heq, hyr⟩ | ⟨_, heq⟩ <;> subst heq
    · exact validDT_addOneDay _ hve0 hyr
    · exact hve0
  · intro y pre post bad habs hparse
    have hnone : icsEventOf y bad = none := by
      simp [icsEventOf, habs, hparse]
    simp [icsEvents, List.filterMap_append, hnone]
  · intro store y pre post bad habs hparse
    have hinv := processShiftGcal_invalid store y bad habs hparse
    unfold runCounts
    rw [List.foldl_append, List.foldl_append, List.foldl_cons]
    simp [runStep, hinv]

/-- C5 witness: a malformed date, an unknown month token (case-sensitive), a
malformed time, an out-of-range day, and a batch where exactly the bad record
is dropped. -/
theorem C5_invalid_input_resilience_witness :
    parse_date_time "nodate" "9:00 AM to 5:00 PM" 5 = none ∧
    parse_date_time "Mon, JAN 6th" "9:00 AM to 5:00 PM" 5 = none ∧
    parse_date_time "Mon, Jan 6th" "9-00" 5 = none ∧
    (validDT ⟨5, 1, 6, 9, 0⟩ = true ∧ validDT ⟨5, 1, 6, 17, 0⟩ = true) ∧
    icsEvents 5
      [⟨"Mon, Jan 6th", "9:00 AM to 5:00 PM", none, none, none, none⟩,
       ⟨"Mon, Feb 30th", "9:00 AM to 5:00 PM", none, none, none, none⟩] =
      icsEvents 5 [⟨"Mon, Jan 6th", "9:00 AM to 5:00 PM", none, none, none, none⟩] ++
        icsEvents 5 [] ∧
    runCounts emptyStore 5
      [⟨"Mon, Feb 30th", "9:00 AM to 5:00 PM", none, none, none, none⟩] =
      runCounts emptyStore 5 [] :=
  ⟨C5_invalid_input_resilience.1 "nodate" "9:00 AM to 5:00 PM" 5 (by decide),
   C5_invalid_input_resilience.2.1 "Mon, JAN 6th" "9:00 AM to 5:00 PM" 5 ⟨"Mon", "JAN", "6"⟩
     (by decide) (by decide),
   C5_invalid_input_resilience.2.2.1 "Mon, Jan 6th" "9-00" 5 (by decide),
   C5_invalid_input_resilience.2.2.2.1 "Mon, Jan 6th" "9:00 AM to 5:00 PM" 5
     ⟨5, 1, 6, 9, 0⟩ ⟨5, 1, 6, 17, 0⟩ (by decide),
   C5_invalid_input_resilience.2.2.2.2.1 5
     [⟨"Mon, Jan 6th", "9:00 AM to 5:00 PM", none, none, none, none⟩] []
     ⟨"Mon, Feb 30th", "9:00 AM to 5:00 PM", none, none, none, none⟩ (by decide) (by decide),
   C5_invalid_input_resilience.2.2.2.2.2 emptyStore 5 [] []
     ⟨"Mon, Feb 30th", "9:00 AM to 5:00 PM", none, none, none, none⟩ (by decide) (by decide)⟩

theorem processShiftGcal_parsed (store : Store) (year : Nat) (shift : Shift) (s e : DT)
    (habs : isAbsent shift.status = false)
    (hp : parse_date_time shift.date shift.time year = some (s, e)) :
    processShiftGcal store year shift =
      if check_event_exists store (toSeconds s) (toSeconds e) then .skipped
      else if store.insertFails (toSeconds s) (toSeconds e) then .insertFailed
      else .inserted := by
  simp [processShiftGcal, habs, hp]

/-- The shift whose status text contains "absent" without being equal to it. -/
def c1Shift : Shift :=
  ⟨"Mon, Jan 6th", "9:00 AM to 5:00 PM", some "Absent today", none, none, none⟩

/-- C1 counterexample: the claim says any record whose status contains
"absent" case-insensitively is excluded from the file emitter's output and
from the reconciler's insert candidates; `c1Shift`'s status contains it, yet
the emitter emits its event and the reconciler inserts it. -/
theorem C1_substring_counterexample :
    strContainsSub (strToLower (c1Shift.status.getD "")) "absent" = true ∧
    (icsEvents 5 [c1Shift]).length = 1 ∧
    processShiftGcal emptyStore 5 c1Shift = .inserted :=
  ⟨by decide, by decide, by decide⟩

/-- C1 (amended): for every shift whose date/time parse, the status-based
exclusion — from the file emitter's output and from the reconciler's insert
candidates — happens exactly when the lowercased status (defaulting to the
empty string) is equal to the literal "absent": a case-insensitive exact
equality, not a substring match. -/
theorem C1_absence_exact_equality (year : Nat) (shift : Shift) (s e : DT) (store : Store)
    (hp : parse_date_time shift.date shift.time year = some (s, e)) :
    (icsEvents year [shift] = [] ↔ strToLower (shift.status.getD "") = "absent") ∧
    (processShiftGcal store year shift = .absent ↔
      strToLower (shift.status.getD "") = "absent") := by
  by_cases habs : isAbsent shift.status = true
  · have heq : strToLower (shift.status.getD "") = "absent" := by
      simpa [isAbsent] using habs
    simp [icsEvents, icsEventOf, processShiftGcal, habs, heq]
  · rw [Bool.not_eq_true] at habs
    have hne : ¬ strToLower (shift.status.getD "") = "absent" := by
      simpa [isAbsent] using habs
    constructor
    · simp [icsEvents, icsEventOf, habs, hp, hne]
    · rw [processShiftGcal_parsed store year shift s e habs hp]
      constructor
      · intro hcontra
        split at hcontra <;> first | exact absurd hcontra (by simp) |
          (split at hcontra <;> exact absurd hcontra (by simp))
      · intro hcontra
        exact absurd hcontra hne

/-- The shift used to instantiate the amended C1: status exactly "absent". -/
def c1wShift : Shift :=
  ⟨"Mon, Jan 6th", "9:00 AM to 5:00 PM", some "absent", none, none, none⟩

/-- C1 witness: the amended claim applied to a concrete absent shift. -/
theorem C1_absence_exact_equality_witness :
    (icsEvents 5 [c1wShift] = [] ↔ strToLower (c1wShift.status.getD "") = "absent") ∧
    (processShiftGcal emptyStore 5 c1wShift = .absent ↔
      strToLower (c1wShift.status.getD "") = "absent") :=
  C1_absence_exact_equality 5 c1wShift ⟨5, 1, 6, 9, 0⟩ ⟨5, 1, 6, 17, 0⟩ emptyStore (by decide)

/-- The shift with no role and no department field. -/
def c2Shift : Shift :=
  ⟨"Mon, Jan 6th", "9:00 AM to 5:00 PM", none, none, none, none⟩

/-- C2 counterexample: the claim says the defaults are "Employee" and
"Unknown"; on a record missing both fields the emitters build the summary
from the defaults "Farm Boy Employee" and "Farm Boy" instead. -/
theorem C2_default_counterexample :
    c2Shift.role = none ∧ c2Shift.department = none ∧
    (icsEvents 5 [c2Shift]).map IcsEvent.summary = ["Work: Farm Boy Employee (Farm Boy)"] ∧
    mkSummary c2Shift ≠ "Work: Employee (Unknown)" :=
  ⟨rfl, rfl, by decide, by decide⟩

/-- C2 (amended): for every record missing the role field both emitters
substitute the default role "Farm Boy Employee", and — independently — for
every record missing the department field they substitute the default
department "Farm Boy", in the summary `Work: {role} ({department})` and in
both descriptions; neither substitution requires the other field to be
missing. -/
theorem C2_defaults (shift : Shift) :
    (shift.role = none →
      mkRole shift = "Farm Boy Employee" ∧
      mkSummary shift = "Work: Farm Boy Employee (" ++ mkDept shift ++ ")" ∧
      icsDescription shift =
        "Role: Farm Boy Employee\\nDepartment: " ++ mkDept shift ++
          "\\nDuration: " ++ shift.duration.getD "N/A" ∧
      gcalDescription shift =
        "Role: Farm Boy Employee\nDepartment: " ++ mkDept shift ++
          "\nDuration: " ++ shift.duration.getD "N/A") ∧
    (shift.department = none →
      mkDept shift = "Farm Boy" ∧
      mkSummary shift = "Work: " ++ mkRole shift ++ " (Farm Boy)" ∧
      icsDescription shift =
        "Role: " ++ mkRole shift ++ "\\nDepartment: Farm Boy\\nDuration: " ++
          shift.duration.getD "N/A" ∧
      gcalDescription shift =
        "Role: " ++ mkRole shift ++ "\nDepartment: Farm Boy\nDuration: " ++
          shift.duration.getD "N/A") := by
  constructor
  · intro hr
    simp only [mkSummary, mkRole, mkDept, icsDescription, gcalDescription, hr,
      Option.getD_none, String.append_assoc]
    refine ⟨?_, ?_, ?_, ?_⟩ <;> trivial
  · intro hd
    simp only [mkSummary, mkRole, mkDept, icsDescription, gcalDescription, hd,
      Option.getD_none, String.append_assoc]
    refine ⟨?_, ?_, ?_, ?_⟩ <;> trivial

/-- The record missing only its role field (department present). -/
def roleMissingShift : Shift := ⟨"d", "t", none, none, some "Produce", some "8h"⟩

/-- The record missing only its department field (role present). -/
def deptMissingShift : Shift := ⟨"d", "t", none, some "Clerk", none, some "8h"⟩

/-- C2 witness: each default exercised independently — a record missing only
the role, and a record missing only the department. -/
theorem C2_defaults_witness :
    (mkRole roleMissingShift = "Farm Boy Employee" ∧
      mkSummary roleMissingShift =
        "Work: Farm Boy Employee (" ++ mkDept roleMissingShift ++ ")" ∧
      icsDescription roleMissingShift =
        "Role: Farm Boy Employee\\nDepartment: " ++ mkDept roleMissingShift ++
          "\\nDuration: " ++ roleMissingShift.duration.getD "N/A" ∧
      gcalDescription roleMissingShift =
        "Role: Farm Boy Employee\nDepartment: " ++ mkDept roleMissingShift ++
          "\nDuration: " ++ roleMissingShift.duration.getD "N/A") ∧
    (mkDept deptMissingShift = "Farm Boy" ∧
      mkSummary deptMissingShift = "Work: " ++ mkRole deptMissingShift ++ " (Farm Boy)" ∧
      icsDescription deptMissingShift =
        "Role: " ++ mkRole deptMissingShift ++ "\\nDepartment: Farm Boy\\nDuration: " ++
          deptMissingShift.duration.getD "N/A" ∧
      gcalDescription deptMissingShift =
        "Role: " ++ mkRole deptMissingShift ++ "\nDepartment: Farm Boy\nDuration: " ++
          deptMissingShift.duration.getD "N/A") :=
  ⟨(C2_defaults roleMissingShift).1 rfl, (C2_defaults deptMissingShift).2 rfl⟩

theorem precleanDates_go (y : Nat) (shifts : List Shift) :
    ∀ acc : List Date, acc.Nodup →
      (shifts.foldl (precleanStep y) acc).Nodup ∧
      ∀ d, d ∈ shifts.foldl (precleanStep y) acc ↔
        d ∈ acc ∨ ∃ shift ∈ shifts, ∃ s e,
          parse_date_time shift.date shift.time y = some (s, e) ∧ s.dateOf = d := by
  induction shifts with
  | nil =>
    intro acc hacc
    exact ⟨hacc, fun d => by simp⟩
  | cons sh rest ih =>
    intro acc hacc
    rw [List.foldl_cons]
    rcases hp : parse_date_time sh.date sh.time y with _ | ⟨s, e2⟩
    · have hstep : precleanStep y acc sh = acc := by simp [precleanStep, hp]
      rw [hstep]
      obtain ⟨hnd, hmem⟩ := ih acc hacc
      refine ⟨hnd, fun d => ?_⟩
      rw [hmem d]
      simp only [List.mem_cons]
      constructor
      · rintro (hd | ⟨shift, hsh, s', e', hps, hdof⟩)
        · exact Or.inl hd
        · exact Or.inr ⟨shift, Or.inr hsh, s', e', hps, hdof⟩
      · rintro (hd | ⟨shift, hsh | hsh, s', e', hps, hdof⟩)
        · exact Or.inl hd
        · rw [hsh] at hps
          rw [hp] at hps
          exact absurd hps (by simp)
        · exact Or.inr ⟨shift, hsh, s', e', hps, hdof⟩
    · by_cases hc : acc.contains s.dateOf
      · have hstep : precleanStep y acc sh = acc := by
          simp only [precleanStep, hp]
          rw [if_pos hc]
        rw [hstep]
        obtain ⟨hnd, hmem⟩ := ih acc hacc
        have hin : s.dateOf ∈ acc := List.mem_of_elem_eq_true hc
        refine ⟨hnd, fun d => ?_⟩
        rw [hmem d]
        simp only [List.mem_cons]
        constructor
        · rintro (hd | ⟨shift, hsh, s', e', hps, hdof⟩)
          · exact Or.inl hd
          · exact Or.inr ⟨shift, Or.inr hsh, s', e', hps, hdof⟩
        · rintro (hd | ⟨shift, hsh | hsh, s', e', hps, hdof⟩)
          · exact Or.inl hd
          · rw [hsh, hp] at hps
            obtain ⟨hseq, _⟩ := Prod.mk.injEq .. ▸ (Option.some.injEq .. ▸ hps)
            subst hdof
            rw [← hseq]
            exact Or.inl hin
          · exact Or.inr ⟨shift, hsh, s', e', hps, hdof⟩
      · have hstep : precleanStep y acc sh = acc ++ [s.dateOf] := by
          simp only [precleanStep, hp]
          rw [if_neg hc]
        rw [hstep]
        have hnotin : s.dateOf ∉ acc := fun hmem0 => hc (List.elem_eq_true_of_mem hmem0)
        have hacc2 : (acc ++ [s.dateOf]).Nodup := by
          rw [List.nodup_append]
          exact ⟨hacc, List.nodup_singleton _, by simpa using hnotin⟩
        obtain ⟨hnd, hmem⟩ := ih (acc ++ [s.dateOf]) hacc2
        refine ⟨hnd, fun d => ?_⟩
        rw [hmem d]
        simp only [List.mem_append, List.mem_cons, List.not_mem_nil, or_false]
        constructor
        · rintro ((hd | hd) | ⟨shift, hsh, s', e', hps, hdof⟩)
          · exact Or.inl hd
          · exact Or.inr ⟨sh, Or.inl rfl, s, e2, hp, hd.symm⟩
          · exact Or.inr ⟨shift, Or.inr hsh, s', e', hps, hdof⟩
        · rintro (hd | ⟨shift, hsh | hsh, s', e', hps, hdof⟩)
          · exact Or.inl (Or.inl hd)
          · rw [hsh, hp] at hps
            obtain ⟨hseq, _⟩ := Prod.mk.injEq .. ▸ (Option.some.injEq .. ▸ hps)
            subst hdof
            rw [← hseq]
            exact Or.inl (Or.inr rfl)
          · exact Or.inr ⟨shift, hsh, s', e', hps, hdof⟩

/-- The absent shift used against C6: valid date/time, status "absent". -/
def absentShift : Shift :=
  ⟨"Mon, Jan 6th", "9:00 AM to 5:00 PM", some "absent", none, none, none⟩

/-- C6 counterexample: the claim says an absent shift contributes no date to
the pre-clean query set and that each window runs midnight-to-midnight; but
the date-collection loop never checks the status, so an absent shift's date is
queried, and the window's upper bound is 23:59:59, one second short of the
next midnight. -/
theorem C6_preclean_counterexample :
    isAbsent absentShift.status = true ∧
    precleanDates 5 [absentShift] = [⟨5, 1, 6⟩] ∧
    dateEndSec ⟨5, 1, 6⟩ ≠ dateStartSec ⟨5, 1, 7⟩ :=
  ⟨by decide, by decide, by decide⟩

/-- C6 (amended): the pre-clean pass queries exactly the distinct start dates
of all successfully-parsed input shifts — absent ones included — and each
date's query window runs from local midnight to local 23:59:59 of the same
day (86399 seconds later, not the next midnight). -/
theorem C6_preclean_dates (y : Nat) (shifts : List Shift) :
    (precleanDates y shifts).Nodup ∧
    (∀ d, d ∈ precleanDates y shifts ↔
      ∃ shift ∈ shifts, ∃ s e,
        parse_date_time shift.date shift.time y = some (s, e) ∧ s.dateOf = d) ∧
    (∀ store d events, store.list (dateStartSec d) (dateEndSec d) = Except.ok events →
      find_duplicate_events store d = findDuplicateIds events) ∧
    (∀ d, dateEndSec d = dateStartSec d + 86399) := by
  obtain ⟨hnd, hmem⟩ := precleanDates_go y shifts [] List.nodup_nil
  refine ⟨hnd, fun d => ?_, fun store d events hst => ?_, fun d => ?_⟩
  · rw [precleanDates, hmem d]
    simp
  · simp [find_duplicate_events, hst]
  · simp [dateStartSec, dateEndSec]

/-- C6 witness: the amended pre-clean description applied at concrete inputs
(the absent shift's date is queried; the empty store yields no duplicates). -/
theorem C6_preclean_dates_witness :
    (⟨5, 1, 6⟩ : Date) ∈ precleanDates 5 [absentShift] ∧
    find_duplicate_events emptyStore ⟨5, 1, 6⟩ = findDuplicateIds [] ∧
    dateEndSec ⟨5, 1, 6⟩ = dateStartSec ⟨5, 1, 6⟩ + 86399 :=
  ⟨((C6_preclean_dates 5 [absentShift]).2.1 ⟨5, 1, 6⟩).mpr
      ⟨absentShift, by simp, ⟨5, 1, 6, 9, 0⟩, ⟨5, 1, 6, 17, 0⟩, by decide, rfl⟩,
   (C6_preclean_dates 5 [absentShift]).2.2.1 emptyStore ⟨5, 1, 6⟩ [] rfl,
   (C6_preclean_dates 5 [absentShift]).2.2.2 ⟨5, 1, 6⟩⟩

theorem eventKey_eq_summary (a b : GEvent) (hs : a.start = b.start)
    (hk : eventKey a = eventKey b) : a.summary = b.summary := by
  unfold eventKey eventStartStr at hk
  rw [hs] at hk
  have hd := congrArg String.data hk
  simp only [String.data_append] at hd
  exact String.ext (List.append_cancel_left hd)

/-- Three identical non-work meetings and one differently-summarized event. -/
def meeting (i : String) : GEvent := ⟨i, "Team Meeting", "Office", some 100, some 200⟩

def otherMeeting : GEvent := ⟨"id4", "Other", "Office", some 100, some 200⟩

/-- C7 counterexample: the claim says the returned events are grouped by
(start instant, summary) and every group beyond its first member is flagged,
predicting exactly two flagged ids here; but the grouping only covers events
whose summary contains "Work:" and whose location is "Farm Boy", so none of
these four events is flagged at all. -/
theorem C7_group_counterexample :
    ((meeting "id1").start = (meeting "id2").start ∧
     (meeting "id1").summary = (meeting "id2").summary ∧
     (meeting "id1").start = (meeting "id3").start ∧
     (meeting "id1").summary = (meeting "id3").summary ∧
     otherMeeting.summary ≠ (meeting "id1").summary) ∧
    findDuplicateIds [meeting "id1", meeting "id2", meeting "id3", otherMeeting] = [] :=
  ⟨by decide, by decide⟩

/-- C7 (amended): among the events that pass the Farm Boy work filter
(summary containing "Work:" and location exactly "Farm Boy"), events are
grouped by (start instant, summary); in every group with more than one member
the first is retained and the rest are flagged: for three such events sharing
start and summary plus one event with a different summary, exactly the second
and third ids are flagged and the differently-summarized event is untouched. -/
theorem C7_duplicate_cluster (e1 e2 e3 e4 : GEvent)
    (h1w : strContainsSub e1.summary "Work:" = true) (h1l : e1.location = "Farm Boy")
    (h2w : strContainsSub e2.summary "Work:" = true) (h2l : e2.location = "Farm Boy")
    (h3w : strContainsSub e3.summary "Work:" = true) (h3l : e3.location = "Farm Boy")
    (h2s : e2.start = e1.start) (h2m : e2.summary = e1.summary)
    (h3s : e3.start = e1.start) (h3m : e3.summary = e1.summary)
    (h4s : e4.start = e1.start) (h4m : e4.summary ≠ e1.summary) :
    findDuplicateIds [e1, e2, e3, e4] = [e2.id, e3.id] := by
  have hk2 : eventKey e2 = eventKey e1 := by
    unfold eventKey eventStartStr
    rw [h2s, h2m]
  have hk3 : eventKey e3 = eventKey e1 := by
    unfold eventKey eventStartStr
    rw [h3s, h3m]
  have hk4 : eventKey e1 ≠ eventKey e4 := fun heq =>
    h4m (eventKey_eq_summary e4 e1 h4s heq.symm)
  have hc1 : (strContainsSub e1.summary "Work:" && (e1.location == "Farm Boy")) = true := by
    rw [h1w, Bool.true_and, h1l]
    exact beq_self_eq_true _
  have hc2 : (strContainsSub e2.summary "Work:" && (e2.location == "Farm Boy")) = true := by
    rw [h2w, Bool.true_and, h2l]
    exact beq_self_eq_true _
  have hc3 : (strContainsSub e3.summary "Work:" && (e3.location == "Farm Boy")) = true := by
    rw [h3w, Bool.true_and, h3l]
    exact beq_self_eq_true _
  have hb2 : (eventKey e1 == eventKey e2) = true := by
    rw [hk2]
    exact beq_self_eq_true _
  have hb3 : (eventKey e1 == eventKey e3) = true := by
    rw [hk3]
    exact beq_self_eq_true _
  have hb4 : (eventKey e1 == eventKey e4) = false := beq_eq_false_iff_ne.mpr hk4
  by_cases h4p : (strContainsSub e4.summary "Work:" && (e4.location == "Farm Boy")) = true
  · have hgroups : eventGroups [e1, e2, e3, e4] =
        [(eventKey e1, [e1, e2, e3]), (eventKey e4, [e4])] := by
      simp only [eventGroups, List.foldl_cons, List.foldl_nil, hc1, hc2, hc3, h4p,
        if_true, insertGrouped, hb2, hb3, hb4, if_false, List.append_assoc,
        List.singleton_append, List.cons_append, List.nil_append,
        Bool.false_eq_true]
    simp [findDuplicateIds, hgroups]
  · have hgroups : eventGroups [e1, e2, e3, e4] = [(eventKey e1, [e1, e2, e3])] := by
      simp only [eventGroups, List.foldl_cons, List.foldl_nil, hc1, hc2, hc3,
        if_true, insertGrouped, hb2, hb3, List.append_assoc,
        List.singleton_append, List.cons_append, List.nil_append]
      rw [if_neg h4p]
    simp [findDuplicateIds, hgroups]

/-- C7 witness: the amended cluster rule at four concrete Farm Boy work
events. -/
theorem C7_duplicate_cluster_witness :
    findDuplicateIds
      [⟨"a1", "Work: X (Y)", "Farm Boy", some 100, some 200⟩,
       ⟨"a2", "Work: X (Y)", "Farm Boy", some 100, some 210⟩,
       ⟨"a3", "Work: X (Y)", "Farm Boy", some 100, some 220⟩,
       ⟨"a4", "Work: Z (Y)", "Farm Boy", some 100, some 200⟩] = ["a2", "a3"] :=
  C7_duplicate_cluster
    ⟨"a1", "Work: X (Y)", "Farm Boy", some 100, some 200⟩
    ⟨"a2", "Work: X (Y)", "Farm Boy", some 100, some 210⟩
    ⟨"a3", "Work: X (Y)", "Farm Boy", some 100, some 220⟩
    ⟨"a4", "Work: Z (Y)", "Farm Boy", some 100, some 200⟩
    (by decide) rfl (by decide) rfl (by decide) rfl rfl rfl rfl rfl rfl (by decide)

theorem sameShiftPred_iff (s e : Int) (event : GEvent) :
    (strContainsSub event.summary "Work:" && event.location == "Farm Boy" &&
      (match event.start, event.stop with
       | some event_start, some event_end =>
         decide ((s - event_start).natAbs / 60 < 30) &&
         decide ((e - event_end).natAbs / 60 < 30)
       | _, _ => false)) = true ↔
    (strContainsSub event.summary "Work:" = true ∧ event.location = "Farm Boy" ∧
      ∃ es ee, event.start = some es ∧ event.stop = some ee ∧
        (s - es).natAbs < 30 * 60 ∧ (e - ee).natAbs < 30 * 60) := by
  obtain ⟨eid, esum, eloc, estart, estop⟩ := event
  rcases estart with _ | es
  · simp
  rcases estop with _ | ee
  · simp
  simp only [Bool.and_eq_true, beq_iff_eq, decide_eq_true_eq, Option.some.injEq]
  constructor
  · rintro ⟨⟨hw, hl⟩, hd1, hd2⟩
    exact ⟨hw, hl, es, ee, rfl, rfl, by omega, by omega⟩
  · rintro ⟨hw, hl, es2, ee2, hes, hee, hd1, hd2⟩
    subst hes
    subst hee
    exact ⟨⟨hw, hl⟩, by omega, by omega⟩

/-- C8: the duplicate check searches the window [start − 1 hour, end + 1 hour]
and deems an existing event "the same shift" — making the reconciler skip the
insertion — exactly when its summary contains the literal "Work:", its
location equals "Farm Boy", and both endpoint differences are strictly below
30 minutes (with both remote timestamps present). -/
theorem C8_same_shift_predicate :
    (∀ store events s e, store.list (s - 3600) (e + 3600) = Except.ok events →
      (check_event_exists store s e = true ↔
        ∃ event ∈ events, strContainsSub event.summary "Work:" = true ∧
          event.location = "Farm Boy" ∧
          ∃ es ee, event.start = some es ∧ event.stop = some ee ∧
            (s - es).natAbs < 30 * 60 ∧ (e - ee).natAbs < 30 * 60)) ∧
    (∀ store year shift sdt edt, isAbsent shift.status = false →
      parse_date_time shift.date shift.time year = some (sdt, edt) →
      (processShiftGcal store year shift = .skipped ↔
        check_event_exists store (toSeconds sdt) (toSeconds edt) = true)) := by
  constructor
  · intro store events s e hst
    unfold check_event_exists
    rw [hst, List.any_eq_true]
    constructor
    · rintro ⟨event, hmem, hpred⟩
      exact ⟨event, hmem, (sameShiftPred_iff s e event).mp hpred⟩
    · rintro ⟨event, hmem, hp2⟩
      exact ⟨event, hmem, (sameShiftPred_iff s e event).mpr hp2⟩
  · intro store year shift sdt edt habs hp
    rw [processShiftGcal_parsed store year shift sdt edt habs hp]
    by_cases hchk : check_event_exists store (toSeconds sdt) (toSeconds edt) = true
    · simp [hchk]
    · rw [Bool.not_eq_true] at hchk
      simp only [hchk, Bool.false_eq_true, if_false]
      constructor
      · intro hcontra
        split at hcontra <;> exact absurd hcontra (by simp)
      · intro hcontra
        exact hcontra.elim

/-- A store whose every list query returns one nearby Farm Boy work event. -/
def oneEventStore : Store :=
  { list := fun _ _ => Except.ok
      [⟨"w1", "Work: X (Y)", "Farm Boy",
        some (toSeconds ⟨5, 1, 6, 9, 0⟩ + 600), some (toSeconds ⟨5, 1, 6, 17, 0⟩ - 600)⟩],
    insertFails := fun _ _ => false }

/-- C8 witness: a remote event 10 minutes off on both endpoints is matched,
and the reconciler skips the corresponding shift. -/
theorem C8_same_shift_predicate_witness :
    check_event_exists oneEventStore (toSeconds ⟨5, 1, 6, 9, 0⟩)
      (toSeconds ⟨5, 1, 6, 17, 0⟩) = true ∧
    processShiftGcal oneEventStore 5 c2Shift = .skipped := by
  have h1 := (C8_same_shift_predicate.1 oneEventStore
      [⟨"w1", "Work: X (Y)", "Farm Boy",
        some (toSeconds ⟨5, 1, 6, 9, 0⟩ + 600), some (toSeconds ⟨5, 1, 6, 17, 0⟩ - 600)⟩]
      (toSeconds ⟨5, 1, 6, 9, 0⟩) (toSeconds ⟨5, 1, 6, 17, 0⟩) rfl).mpr
    ⟨⟨"w1", "Work: X (Y)", "Farm Boy",
        some (toSeconds ⟨5, 1, 6, 9, 0⟩ + 600), some (toSeconds ⟨5, 1, 6, 17, 0⟩ - 600)⟩,
      by simp, by decide, rfl,
      toSeconds ⟨5, 1, 6, 9, 0⟩ + 600, toSeconds ⟨5, 1, 6, 17, 0⟩ - 600, rfl, rfl,
      by decide, by decide⟩
  exact ⟨h1, (C8_same_shift_predicate.2 oneEventStore 5 c2Shift ⟨5, 1, 6, 9, 0⟩
    ⟨5, 1, 6, 17, 0⟩ (by decide) (by decide)).mpr h1⟩

theorem runCounts_go (store : Store) (year : Nat) (shifts : List Shift) :
    ∀ c : Nat × Nat, shifts.foldl (runStep store year) c =
      (c.1 + (shifts.filter fun sh =>
          processShiftGcal store year sh == GcalOutcome.inserted).length,
       c.2 + (shifts.filter fun sh =>
          processShiftGcal store year sh == GcalOutcome.skipped).length) := by
  induction shifts with
  | nil => intro c; simp
  | cons sh rest ih =>
    intro c
    rw [List.foldl_cons, ih]
    rcases hout : processShiftGcal store year sh <;>
      simp [runStep, hout, List.filter_cons] <;> omega

theorem runCounts_eq (store : Store) (year : Nat) (shifts : List Shift) :
    runCounts store year shifts =
      ((shifts.filter fun sh =>
          processShiftGcal store year sh == GcalOutcome.inserted).length,
       (shifts.filter fun sh =>
          processShiftGcal store year sh == GcalOutcome.skipped).length) := by
  unfold runCounts
  rw [runCounts_go]
  simp

/-- C9: the reconciliation run reports success exactly when at least one shift
was inserted or at least one shift was skipped as an existing duplicate; a run
where every shift is absent, unparseable, or fails on insert returns the
failure value `false` (a plain boolean outcome, no exception). -/
theorem C9_run_result (store : Store) (year : Nat) (shifts : List Shift) :
    add_events_to_google_calendar store year shifts = true ↔
      ∃ shift ∈ shifts, processShiftGcal store year shift = .inserted ∨
        processShiftGcal store year shift = .skipped := by
  unfold add_events_to_google_calendar
  rw [runCounts_eq]
  rw [Bool.or_eq_true, decide_eq_true_eq, decide_eq_true_eq]
  simp only [List.length_pos_iff_exists_mem]
  constructor
  · rintro (⟨x, hx⟩ | ⟨x, hx⟩) <;> rw [List.mem_filter] at hx
    · exact ⟨x, hx.1, Or.inl (by simpa using hx.2)⟩
    · exact ⟨x, hx.1, Or.inr (by simpa using hx.2)⟩
  · rintro ⟨sh, hmem, hcase | hcase⟩
    · exact Or.inl ⟨sh, List.mem_filter.mpr ⟨hmem, by simp [hcase]⟩⟩
    · exact Or.inr ⟨sh, List.mem_filter.mpr ⟨hmem, by simp [hcase]⟩⟩

/-- A store whose every list query raises. -/
def failStore : Store :=
  { list := fun _ _ => Except.error (), insertFails := fun _ _ => false }

/-- C10: when the existence query raises, `check_event_exists` reports that no
matching event exists, so the reconciler never skips that shift and (whenever
the insert call itself succeeds) inserts it. -/
theorem C10_query_failure_inserts (store : Store) (year : Nat) (shift : Shift) (sdt edt : DT)
    (habs : isAbsent shift.status = false)
    (hp : parse_date_time shift.date shift.time year = some (sdt, edt))
    (hfail : store.list (toSeconds sdt - 3600) (toSeconds edt + 3600) = Except.error ()) :
    check_event_exists store (toSeconds sdt) (toSeconds edt) = false ∧
    processShiftGcal store year shift ≠ .skipped ∧
    (store.insertFails (toSeconds sdt) (toSeconds edt) = false →
      processShiftGcal store year shift = .inserted) := by
  have hchk : check_event_exists store (toSeconds sdt) (toSeconds edt) = false := by
    unfold check_event_exists
    rw [hfail]
  refine ⟨hchk, ?_, ?_⟩
  · rw [processShiftGcal_parsed store year shift sdt edt habs hp]
    simp only [hchk, Bool.false_eq_true, if_false]
    split <;> simp
  · intro hins
    rw [processShiftGcal_parsed store year shift sdt edt habs hp]
    simp [hchk, hins]

/-- C10 witness: against the always-failing store, a concrete valid shift is
not skipped and is inserted. -/
theorem C10_query_failure_inserts_witness :
    check_event_exists failStore (toSeconds ⟨5, 1, 6, 9, 0⟩)
      (toSeconds ⟨5, 1, 6, 17, 0⟩) = false ∧
    processShiftGcal failStore 5 c2Shift ≠ .skipped ∧
    (failStore.insertFails (toSeconds ⟨5, 1, 6, 9, 0⟩) (toSeconds ⟨5, 1, 6, 17, 0⟩) = false →
      processShiftGcal failStore 5 c2Shift = .inserted) :=
  C10_query_failure_inserts failStore 5 c2Shift ⟨5, 1, 6, 9, 0⟩ ⟨5, 1, 6, 17, 0⟩
    (by decide) (by decide) rfl

end Farmboy
